import Mathlib

/-!
Verification development for the statute-structuring core of the
OKStatuteProject repository.

The Python source is shallowly embedded: strings are `List Char`, each
stateful class becomes explicit state passing, re-raising code returns
`Except`.  The embedded functions keep the source's names
(`StatuteBodyStructurer._process_line` becomes `process_line`, and so on).
Regular expressions of the source are unfolded into explicit character
scans; the comments on each definition name the source pattern.

Character-class predicates model Python's `str.isspace`, `str.isalnum`,
`str.isdigit`, `str.isupper` and `str.islower` on the ASCII inputs this
pipeline processes.
-/

/-- Python `c.isspace()` for the characters occurring in statute text. -/
def pyIsSpace (c : Char) : Bool :=
  c == ' ' || c == '\t' || c == '\n' || c == '\r' || c == '\x0b' || c == '\x0c'

/-- Python `c.isalnum()` restricted to ASCII. -/
def pyIsAlnum (c : Char) : Bool := c.isAlpha || c.isDigit

/-- Python `s.lstrip()`. -/
def lstripWS (l : List Char) : List Char := l.dropWhile pyIsSpace

/-- Python `s.rstrip()`. -/
def rstripWS (l : List Char) : List Char := (l.reverse.dropWhile pyIsSpace).reverse

/-- Python `s.strip()`. -/
def stripWS (l : List Char) : List Char := lstripWS (rstripWS l)

/-- Split at every newline character, keeping a (possibly empty) final piece. -/
def splitOnNL : List Char → List (List Char)
  | [] => [[]]
  | c :: rest =>
    if c = '\n' then [] :: splitOnNL rest
    else
      match splitOnNL rest with
      | [] => [[c]]
      | h :: t => (c :: h) :: t

/-- Python `s.splitlines()` for texts whose line breaks are `\n`:
no piece is produced after a trailing newline, and `"".splitlines() == []`. -/
def pySplitlines (l : List Char) : List (List Char) :=
  if l.isEmpty then []
  else if l.getLast? = some '\n' then (splitOnNL l).dropLast
  else splitOnNL l

/-- The three label types of `StatuteBodyStructurer.MARKER_PATTERNS`
(src/statute/structurers.py lines 22-26). -/
inductive LabelType : Type where
  | alpha_upper
  | numeric
  | alpha_lower
deriving DecidableEq, BEq, Repr

/-- Marker pattern `([A-Z])\. ` applied after the leading whitespace:
returns the captured group and the number of consumed characters. -/
def match_alpha_upper : List Char → Option (List Char × Nat)
  | c :: '.' :: ' ' :: _ => if c.isUpper then some ([c], 3) else none
  | _ => none

/-- Marker pattern `(\d+)\. ` applied after the leading whitespace. -/
def match_numeric (rest : List Char) : Option (List Char × Nat) :=
  let ds := rest.takeWhile Char.isDigit
  if ds.isEmpty then none
  else
    match rest.drop ds.length with
    | '.' :: ' ' :: _ => some (ds, ds.length + 2)
    | _ => none

/-- Marker pattern `([a-z])\. ` applied after the leading whitespace. -/
def match_alpha_lower : List Char → Option (List Char × Nat)
  | c :: '.' :: ' ' :: _ => if c.isLower then some ([c], 3) else none
  | _ => none

/-- `StatuteBodyStructurer._check_line_for_label`: try the three
`MARKER_PATTERNS` (each `^\s*(...)\. `) in order; on a match return
(label, label type, match end). -/
def check_line_for_label (line : List Char) : Option (List Char × LabelType × Nat) :=
  let ws := (line.takeWhile pyIsSpace).length
  let rest := line.drop ws
  match match_alpha_upper rest with
  | some (lab, e) => some (lab, .alpha_upper, ws + e)
  | none =>
    match match_numeric rest with
    | some (lab, e) => some (lab, .numeric, ws + e)
    | none =>
      match match_alpha_lower rest with
      | some (lab, e) => some (lab, .alpha_lower, ws + e)
      | none => none

/-- `StatuteBodyStructurer._get_other_type_starters`: the starter literals
`"A. "`, `"a. "`, `"1. "` of the two label types other than the given one,
in the insertion order of the source's `starter_literals` dict. -/
def starter_pats : LabelType → List (List Char)
  | .alpha_upper => [['a', '.', ' '], ['1', '.', ' ']]
  | .alpha_lower => [['A', '.', ' '], ['1', '.', ' ']]
  | .numeric => [['A', '.', ' '], ['a', '.', ' ']]

/-- `re.search` with pattern `(?:(?<=^)|(?<=\s))(lit1|lit2)`: the leftmost
index at which one of the literals occurs preceded by start-of-string or a
whitespace character.  `atStart` records whether the current position
satisfies the lookbehind. -/
def inline_search (pats : List (List Char)) : List Char → Nat → Bool → Option Nat
  | [], _, _ => none
  | c :: rest, i, atStart =>
    if atStart && pats.any (fun p => p.isPrefixOf (c :: rest)) then some i
    else inline_search pats rest (i + 1) (pyIsSpace c)

/-- One node of the structured body: the dict
`{"label": ..., "text": ..., "subsections": [...]}` built by
`StatuteBodyStructurer._push_section`. -/
inductive Section : Type where
  | mk (label : List Char) (text : List Char) (subsections : List Section)
deriving Repr

def Section.label : Section → List Char
  | .mk l _ _ => l

def Section.text : Section → List Char
  | .mk _ t _ => t

def Section.subsections : Section → List Section
  | .mk _ _ s => s

/-- The mutable state of a `StatuteBodyStructurer` object.

In the source, `self.stack` is a list of references to nodes that are
aliased inside `self._structure`; pushing appends the new node as the last
child of the top of the stack, so the stack always occupies a contiguous
segment of the rightmost spine of the forest `self._structure`.  The state
therefore represents the stack by the depth `stackDepth` of its first
entry on that spine together with its length `stackLen`; `sects` is
`self._structure` and `level_order` is `self.level_order`. -/
structure BState : Type where
  sects : List Section
  level_order : List LabelType
  stackDepth : Nat
  stackLen : Nat
deriving Repr

/-- `StatuteBodyStructurer.__init__`. -/
def initState : BState := ⟨[], [], 0, 0⟩

/-- Replace the last element of a list by its image under `f`. -/
def modifyLast (f : Section → Section) : List Section → List Section
  | [] => []
  | [s] => [f s]
  | s :: s2 :: rest => s :: modifyLast f (s2 :: rest)

/-- Apply `f` to the node at depth `d` on the rightmost spine of the forest
(the last root, its last subsection, and so on). -/
def modifyAtDepth (f : Section → Section) : Nat → List Section → List Section
  | 0, forest => modifyLast f forest
  | d + 1, forest =>
    modifyLast (fun s => .mk s.label s.text (modifyAtDepth f d s.subsections)) forest

/-- `stack[-1]["subsections"].append(section)` expressed on the spine. -/
def appendChildAt (d : Nat) (sec : Section) (forest : List Section) : List Section :=
  modifyAtDepth (fun s => .mk s.label s.text (s.subsections ++ [sec])) d forest

/-- `node["text"] += " " + txt` expressed on the spine. -/
def appendTextAt (d : Nat) (txt : List Char) (forest : List Section) : List Section :=
  modifyAtDepth (fun s => .mk s.label (s.text ++ ' ' :: txt) s.subsections) d forest

/-- `self.level_order.index(label_type)`: first-seen index of a label type.
Callers guarantee membership (the Python `.index` would raise otherwise). -/
def level_index : List LabelType → LabelType → Nat
  | [], _ => 0
  | t' :: rest, t => if t' = t then 0 else level_index rest t + 1

/-- `StatuteBodyStructurer._push_section`: pop the stack while its length
exceeds the new label's level, then append the new node as a child of the
resulting stack top (a new document root if the stack is empty) and push it. -/
def push_section (st : BState) (label : List Char) (t : LabelType) (content : List Char) : BState :=
  let level := level_index st.level_order t
  let n2 := min st.stackLen level
  let sec := Section.mk label content []
  if n2 = 0 then
    { st with sects := st.sects ++ [sec], stackDepth := 0, stackLen := 1 }
  else
    { st with sects := appendChildAt (st.stackDepth + n2 - 1) sec st.sects,
              stackLen := n2 + 1 }

/-- `StatuteBodyStructurer._append_to_last`. -/
def append_to_last (st : BState) (line : List Char) : BState :=
  if st.stackLen ≠ 0 then
    { st with sects := appendTextAt (st.stackDepth + st.stackLen - 1) (stripWS line) st.sects }
  else if st.sects.isEmpty then
    { st with sects := [Section.mk [] (stripWS line) []] }
  else
    { st with sects := appendTextAt 0 (stripWS line) st.sects }

/-- `StatuteBodyStructurer._process_line`, with explicit fuel making the
recursion structural.  Every recursive call processes a string at least
three characters shorter, so fuel `line.length + 1` (see `process_line`)
can never be exhausted; exhaustion returns the state unchanged. -/
def process_lineF : Nat → BState → List Char → BState
  | 0, st, _ => st
  | fuel + 1, st, line =>
    match check_line_for_label line with
    | none => append_to_last st line
    | some (label, t, e) =>
      let st1 := match st.level_order.contains t with
                 | true => st
                 | false => { st with level_order := st.level_order ++ [t] }
      let content := stripWS (line.drop e)
      if (check_line_for_label content).isSome then
        process_lineF fuel (push_section st1 label t []) content
      else
        match inline_search (starter_pats t) content 0 true with
        | some idx =>
          process_lineF fuel (push_section st1 label t (stripWS (content.take idx)))
            (stripWS (content.drop idx))
        | none => push_section st1 label t content

/-- `StatuteBodyStructurer._process_line`. -/
def process_line (st : BState) (line : List Char) : BState :=
  process_lineF (line.length + 1) st line

/-- The loop body of `StatuteBodyStructurer._remove_soft_newlines`: the
Python loop keeps a `buffer` holding the line merged so far and blanks the
consumed following line; since a non-empty buffer shadows the current index
entirely, the loop is equivalent to this head-rewriting recursion.  Each
step shortens the list of lines by one, so fuel `lines.length + 1` can
never be exhausted. -/
def soft_joinF : Nat → List (List Char) → List (List Char)
  | 0, ls => ls
  | _ + 1, [] => []
  | fuel + 1, l :: rest =>
    let c := rstripWS l
    if c.isEmpty then soft_joinF fuel rest
    else
      match rest with
      | [] => [c]
      | l1 :: rest1 =>
        let soft := pyIsAlnum (c.getLastD ' ') || c.getLastD ' ' == ','
        let noIndent := !(pyIsSpace (l1.headD 'x'))
        if soft && noIndent then soft_joinF fuel ((c ++ ' ' :: stripWS l1) :: rest1)
        else c :: soft_joinF fuel rest

/-- `StatuteBodyStructurer._remove_soft_newlines`. -/
def remove_soft_newlines (text : List Char) : List Char :=
  let lines := pySplitlines text
  List.intercalate ['\n'] (soft_joinF (lines.length + 1) lines)

/-- Python `int(label)` for a string of decimal digits. -/
def digitsToNat (l : List Char) : Nat := l.foldl (fun a c => a * 10 + (c.toNat - 48)) 0

/-- The two sequence checks performed on the non-empty labels of one level
by `StatuteBodyStructurer._check_recursive` (lines 176-192): all-numeric
labels must read 1, 2, ..., N and all single-letter labels must read
a, b, c, ... after lowercasing.  Python's dynamic error messages are
modelled by fixed tags. -/
def level_label_check (labels : List (List Char)) : Except String Unit :=
  if labels.all (fun l => !l.isEmpty && l.all Char.isDigit) then
    if labels.map digitsToNat = List.range' 1 labels.length then .ok ()
    else .error "Inconsistent numeric label sequence"
  else if labels.all (fun l => l.length == 1 && l.all Char.isAlpha) then
    if labels.map (fun l => (Char.toLower (l.headD ' ')).toNat) = List.range' 97 labels.length then .ok ()
    else .error "Inconsistent alphabetic label sequence"
  else .ok ()

mutual

/-- Size of a section tree, used as termination fuel for the recursive
consistency walk. -/
def sec_size : Section → Nat
  | .mk _ _ subs => 1 + secs_size subs

/-- Size of a section forest. -/
def secs_size : List Section → Nat
  | [] => 1
  | s :: rest => 1 + sec_size s + secs_size rest

end

mutual

/-- `StatuteBodyStructurer._check_recursive` with structural fuel; the fuel
`2 * secs_size sections + 2` used by `check_consistency` strictly dominates
the length of every call chain, so exhaustion (which returns `.ok ()`) is
unreachable.  Note the source returns before recursing when the level has
no non-empty labels. -/
def check_recursiveF : Nat → List Section → Except String Unit
  | 0, _ => .ok ()
  | fuel + 1, sections =>
    let labels := sections.filterMap (fun s => if s.label.isEmpty then none else some s.label)
    if labels.isEmpty then .ok ()
    else
      match level_label_check labels with
      | .error e => .error e
      | .ok _ => check_childrenF fuel sections

/-- The `for section in sections: self._check_recursive(section["subsections"])`
loop of `_check_recursive`. -/
def check_childrenF : Nat → List Section → Except String Unit
  | _, [] => .ok ()
  | 0, _ :: _ => .ok ()
  | fuel + 1, s :: rest =>
    match check_recursiveF fuel s.subsections with
    | .error e => .error e
    | .ok _ => check_childrenF fuel rest

end

/-- `StatuteBodyStructurer._check_consistency` (which just calls
`_check_recursive` on the root list). -/
def check_consistency (sections : List Section) : Except String Unit :=
  check_recursiveF (2 * secs_size sections + 2) sections

/-- The rewrite at the end of `structure` (lines 43-53 of structurers.py):
a single unlabeled top-level intro followed by only labeled roots absorbs
the labeled roots as its subsections.  When that happens every node of the
old stack moves one level deeper on the spine, hence the `stackDepth + 1`. -/
def intro_nesting (st : BState) : BState :=
  match st.sects with
  | intro :: rest =>
    if rest.length ≠ 0 ∧ intro.label = [] ∧ rest.all (fun s => !s.label.isEmpty) then
      { st with
        sects := [Section.mk intro.label intro.text (intro.subsections ++ rest)],
        stackDepth := if st.stackLen = 0 then st.stackDepth else st.stackDepth + 1 }
    else st
  | [] => st

/-- `StatuteBodyStructurer.structure`: soft-newline removal, per-line
processing, the unlabeled-intro nesting rewrite, and (optionally) the
consistency check.  Returns the structure list together with the object
state left behind by the call. -/
def structure_fn (st : BState) (raw_body_text : List Char) (check : Bool) :
    Except String (List Section × BState) :=
  let cleaned := remove_soft_newlines raw_body_text
  let lines := pySplitlines (stripWS cleaned)
  let st2 := intro_nesting (lines.foldl process_line st)
  if check then
    match check_consistency st2.sects with
    | .error e => .error e
    | .ok _ => .ok (st2.sects, st2)
  else .ok (st2.sects, st2)

/-- The seven label types of `LABEL_PATTERNS` in src/statute/statutetree.py. -/
inductive TreeLabelType : Type where
  | upper
  | number
  | lower
  | paren_upper
  | paren_number
  | paren_lower
  | ordinal
deriving DecidableEq, BEq, Repr

/-- The ten ordinal words of the `ordinal` pattern. -/
def ordinal_words : List (List Char) :=
  ["First", "Second", "Third", "Fourth", "Fifth", "Sixth", "Seventh", "Eighth",
   "Ninth", "Tenth"].map String.toList

/-- Pattern `^[A-Z]\.`. -/
def pat_upper_dot : List Char → Option (List Char)
  | c :: '.' :: _ => if c.isUpper then some [c, '.'] else none
  | _ => none

/-- Pattern `^\d+\.`. -/
def pat_number_dot (text : List Char) : Option (List Char) :=
  let ds := text.takeWhile Char.isDigit
  if !ds.isEmpty && (text.drop ds.length).headD ' ' == '.' then some (ds ++ ['.'])
  else none

/-- Pattern `^[a-z]\.`. -/
def pat_lower_dot : List Char → Option (List Char)
  | c :: '.' :: _ => if c.isLower then some [c, '.'] else none
  | _ => none

/-- Pattern `^\([A-Z]\)`. -/
def pat_paren_upper : List Char → Option (List Char)
  | '(' :: c :: ')' :: _ => if c.isUpper then some ['(', c, ')'] else none
  | _ => none

/-- Pattern `^\([0-9]+\)`. -/
def pat_paren_number (text : List Char) : Option (List Char) :=
  match text with
  | '(' :: rest =>
    let ds := rest.takeWhile Char.isDigit
    if !ds.isEmpty && (rest.drop ds.length).headD ' ' == ')' then some ('(' :: ds ++ [')'])
    else none
  | _ => none

/-- Pattern `^\([a-z]\)`. -/
def pat_paren_lower : List Char → Option (List Char)
  | '(' :: c :: ')' :: _ => if c.isLower then some ['(', c, ')'] else none
  | _ => none

/-- Pattern `^(First|Second|...|Tenth)\.` — the whole match includes the dot. -/
def pat_ordinal (text : List Char) : Option (List Char) :=
  (ordinal_words.find? (fun w => (w ++ ['.']).isPrefixOf text)).map (fun w => w ++ ['.'])

/-- `match_label` of src/statute/statutetree.py: try the seven anchored
`LABEL_PATTERNS` in order, returning the full matched token and its type.
The `None, None` failure of the source becomes `none`. -/
def match_label (text : List Char) : Option (List Char × TreeLabelType) :=
  match pat_upper_dot text with
  | some tok => some (tok, .upper)
  | none =>
  match pat_number_dot text with
  | some tok => some (tok, .number)
  | none =>
  match pat_lower_dot text with
  | some tok => some (tok, .lower)
  | none =>
  match pat_paren_upper text with
  | some tok => some (tok, .paren_upper)
  | none =>
  match pat_paren_number text with
  | some tok => some (tok, .paren_number)
  | none =>
  match pat_paren_lower text with
  | some tok => some (tok, .paren_lower)
  | none =>
  match pat_ordinal text with
  | some tok => some (tok, .ordinal)
  | none => none

/-- `clean_label` of src/statute/statutetree.py:
`re.sub(r"[().]", "", label).strip()`. -/
def clean_label (label : List Char) : List Char :=
  stripWS (label.filter (fun c => !(c == '(' || c == ')' || c == '.')))

/-- Number of leading characters that are not alphanumeric. -/
def non_alnum_run : List Char → Nat
  | [] => 0
  | c :: rest => if pyIsAlnum c then 0 else non_alnum_run rest + 1

/-- The inner `while b_char is None` loops of `match_string_prefix_fuzzy`:
the least index `j ≥ i` whose character is alphanumeric, or the length of
the string when there is none. -/
def skip_to_alnum (s : List Char) (i : Nat) : Nat := i + non_alnum_run (s.drop i)

/-- The main `while` loop of `match_string_prefix_fuzzy`, structural in the
fuel; `fuzzy` supplies fuel `body.length + prefix.length + 1`, which the
loop (advancing at least one index per iteration) can never exhaust.
Exhaustion mirrors the loop condition failing: the trailing check of the
source accepts iff the rest of the prefix has no alphanumeric character. -/
def match_fuzzyF (body pfx : List Char) : Nat → Nat → Nat → Option Nat
  | 0, b_idx, p_idx =>
    if (pfx.drop p_idx).any pyIsAlnum then none else some b_idx
  | fuel + 1, b_idx, p_idx =>
    if b_idx < body.length ∧ p_idx < pfx.length then
      if pyIsSpace ((body.drop b_idx).headD ' ') then match_fuzzyF body pfx fuel (b_idx + 1) p_idx
      else if pyIsSpace ((pfx.drop p_idx).headD ' ') then match_fuzzyF body pfx fuel b_idx (p_idx + 1)
      else
        let b2 := skip_to_alnum body b_idx
        let p2 := skip_to_alnum pfx p_idx
        if pfx.length ≤ p2 then some b2
        else if body.length ≤ b2 then none
        else if ((body.drop b2).headD ' ').toLower = ((pfx.drop p2).headD ' ').toLower then
          match_fuzzyF body pfx fuel (b2 + 1) (p2 + 1)
        else none
    else
      if (pfx.drop p_idx).any pyIsAlnum then none else some b_idx

/-- `match_string_prefix_fuzzy(body, prefix)` of src/statute/utils.py. -/
def match_string_prefix_fuzzy (body pfx : List Char) : Option Nat :=
  match_fuzzyF body pfx (body.length + pfx.length + 1) 0 0

/-- The table-of-contents completeness check of
`StatuteParser._parse_statute_pdf_text` (src/statute/statuteparser.py lines
200-206): `missing = [h for h in toc_references if h not in content_headers]`. -/
def missing_toc_headers (toc_references content_headers : List (List Char)) :
    List (List Char) :=
  toc_references.filter (fun h => !content_headers.contains h)

/-- `if missing: raise ValueError("Statute had missing content")`. -/
def toc_consistency_check (toc_references content_headers : List (List Char)) :
    Except String Unit :=
  if (missing_toc_headers toc_references content_headers).isEmpty then .ok ()
  else .error "Statute had missing content"

/-- The reference dict `{"title": ..., "section": ..., "version": ...}`
returned by `StatuteReferenceStructurer.structure`. -/
structure Reference : Type where
  title : List Char
  section_ : List Char
  version : Option (List Char)
deriving DecidableEq, Repr

/-- Python `s.lstrip("§")`. -/
def lstrip_sect_sign (l : List Char) : List Char := l.dropWhile (fun c => c == '§')

/-- Python `s.rstrip(".: ")`. -/
def rstrip_punct (l : List Char) : List Char :=
  (l.reverse.dropWhile (fun c => c == '.' || c == ':' || c == ' ')).reverse

/-- The character class `[A-Za-z0-9.-]` of the reference regex. -/
def ref_section_char (c : Char) : Bool := c.isAlpha || c.isDigit || c == '.' || c == '-'

/-- Python `$` of `re.match`: the position matches at the very end of the
text or just before a single final newline.  `drop_dollar_newline` removes
that tolerated final newline from a tail. -/
def drop_dollar_newline (l : List Char) : List Char :=
  if l.getLast? = some '\n' then l.dropLast else l

/-- The tail `(?:v(\d+))?$` after the section group: the remaining text
(up to the `$` newline tolerance) is empty or `v` followed by digits. -/
def ref_tail_ok (suffix : List Char) : Bool :=
  let core := drop_dollar_newline suffix
  core.isEmpty ||
    (match core with
     | 'v' :: ds => !ds.isEmpty && ds.all Char.isDigit
     | _ => false)

/-- The version captured by `(?:v(\d+))?` from a tail accepted by
`ref_tail_ok`. -/
def ref_tail_version (suffix : List Char) : Option (List Char) :=
  match drop_dollar_newline suffix with
  | 'v' :: ds => some ds
  | _ => none

/-- `re.match(r"(\d+)-([A-Za-z0-9.-]+?)(?:v(\d+))?$", text)`: the greedy
digit group must be the maximal digit run followed by `-`; the non-greedy
section group takes the least `k ≥ 1` whose remainder matches the optional
version suffix and the anchor. -/
def ref_regex_match (text : List Char) : Option Reference :=
  let ds := text.takeWhile Char.isDigit
  if ds = [] then none
  else
    match text.drop ds.length with
    | '-' :: rest =>
      match (List.range rest.length).find?
          (fun k => (rest.take (k + 1)).all ref_section_char && ref_tail_ok (rest.drop (k + 1))) with
      | some k =>
        some ⟨ds, rest.take (k + 1), ref_tail_version (rest.drop (k + 1))⟩
      | none => none
    | _ => none

/-- `text = raw_ref_text.strip().lstrip("§").rstrip(".: ")` of
`StatuteReferenceStructurer.structure`. -/
def ref_normalize (raw_ref_text : List Char) : List Char :=
  rstrip_punct (lstrip_sect_sign (stripWS raw_ref_text))

/-- `StatuteReferenceStructurer.structure` (src/statute/structurers.py lines
236-255): strip the `§` signs and trailing punctuation, then match the
reference pattern; a failed match raises `ValueError`. -/
def reference_structure (raw_ref_text : List Char) : Except String Reference :=
  match ref_regex_match (ref_normalize raw_ref_text) with
  | some r => .ok r
  | none => .error "Unrecognized title format"

/-- JSON values, the common value domain of `json.dumps`/`json.loads` used
by `Statute.to_json`/`Statute.from_json` (src/statute/statute.py).  The
Python string codec pair of the standard library is modelled by working at
this value level: `dumps` renders a value and `loads` recovers the same
value, so the in-repository content of the round trip is the mapping
between `Statute` fields and this value. -/
inductive Json : Type where
  | null
  | num (n : Int)
  | str (s : List Char)
  | arr (elts : List Json)
  | obj (fields : List (List Char × Json))
deriving Repr

/-- Lookup in a JSON object, modelling Python `dict` access on objects
whose keys are unique (as produced by `Statute.to_json`). -/
def jlookup (fields : List (List Char × Json)) (key : List Char) : Option Json :=
  match fields with
  | [] => none
  | (k, v) :: rest => if k == key then some v else jlookup rest key

/-- The statute record `Statute(reference, name, body, history)` as the
pipeline produces it: the reference dict from
`StatuteReferenceStructurer.structure`, the statute name, the body tree
from `StatuteBodyStructurer.structure`, the raw history text. -/
structure StatuteRec : Type where
  reference : Reference
  name : List Char
  body : Section
  history : List Char

/-- The reference dict rendered as JSON (`None` becomes `null`). -/
def reference_to_json (r : Reference) : Json :=
  .obj [("title".toList, .str r.title),
        ("section".toList, .str r.section_),
        ("version".toList, match r.version with
          | none => .null
          | some v => .str v)]

mutual

/-- One section dict `{"label": ..., "text": ..., "subsections": [...]}`
rendered as JSON, in the key order the structurer builds it. -/
def section_to_json : Section → Json
  | .mk l t subs => .obj [("label".toList, .str l),
                          ("text".toList, .str t),
                          ("subsections".toList, .arr (sections_to_json subs))]

/-- A list of section dicts rendered as JSON. -/
def sections_to_json : List Section → List Json
  | [] => []
  | s :: rest => section_to_json s :: sections_to_json rest

end

/-- Reading a loaded reference dict back into its fields. -/
def json_to_reference (j : Json) : Option Reference :=
  match j with
  | .obj [(k1, .str t), (k2, .str s), (k3, v)] =>
    if k1 == "title".toList && k2 == "section".toList && k3 == "version".toList then
      match v with
      | .null => some ⟨t, s, none⟩
      | .str ver => some ⟨t, s, some ver⟩
      | _ => none
    else none
  | _ => none

mutual

/-- Reading a loaded section dict back into a `Section` tree. -/
def json_to_section : Json → Option Section
  | .obj [(k1, .str l), (k2, .str t), (k3, .arr subs)] =>
    if k1 == "label".toList && k2 == "text".toList && k3 == "subsections".toList then
      match jsons_to_sections subs with
      | some ss => some (.mk l t ss)
      | none => none
    else none
  | _ => none

/-- Reading a loaded list of section dicts. -/
def jsons_to_sections : List Json → Option (List Section)
  | [] => some []
  | j :: rest =>
    match json_to_section j with
    | some s =>
      match jsons_to_sections rest with
      | some ss => some (s :: ss)
      | none => none
    | none => none

end

/-- `Statute.to_json` (src/statute/statute.py lines 122-131): the serialized
dict, with the reference stored under the key `"title"`. -/
def statute_to_json (st : StatuteRec) : Json :=
  .obj [("schema_version".toList, .num 1),
        ("title".toList, reference_to_json st.reference),
        ("name".toList, .str st.name),
        ("body".toList, section_to_json st.body),
        ("history".toList, .str st.history)]

/-- `Statute.from_json` (src/statute/statute.py lines 150-172) on a loaded
JSON value: reject a wrong `schema_version`, then rebuild the record from
the keys `"title"`, `"name"`, `"body"`, `"history"`; a missing key or a
field of the wrong shape is a failure (Python would raise). -/
def statute_from_json (j : Json) : Except String StatuteRec :=
  match j with
  | .obj fields =>
    match jlookup fields "schema_version".toList with
    | some (.num 1) =>
      match jlookup fields "title".toList, jlookup fields "name".toList,
            jlookup fields "body".toList, jlookup fields "history".toList with
      | some tj, some (.str name), some bj, some (.str history) =>
        match json_to_reference tj, json_to_section bj with
        | some r, some b => .ok ⟨r, name, b, history⟩
        | _, _ => .error "malformed statute record"
      | _, _, _, _ => .error "malformed statute record"
    | _ => .error "Unsupported schema version"
  | _ => .error "not a JSON object"

/-- The structured body returned to the caller of
`StatuteBodyStructurer.structure` (the Python method returns only the
root list; the state stays inside the object). -/
def structure_result (raw : List Char) (check : Bool) : Except String (List Section) :=
  (structure_fn initState raw check).map Prod.fst

/-!
## Claim theorems
-/

/-- C1, counterexample.  The claim generalizes the per-line splitting to
every line "bearing several labels" — with the label notion of the
seven-pattern classifier (its own source sentence demands two nodes for
`"B. (a) The word means..."`).  But `StatuteBodyStructurer` only splits at
its three dot-style markers: on `"A. (a) The word means the dog."`, whose
remainder `"(a) The word means the dog."` the classifier recognizes as
bearing the label `(a)`, the structurer produces a single node `A`
carrying the whole remainder as text and no second node. -/
theorem c1_multi_label_counterexample :
    structure_result "A. (a) The word means the dog.".toList true =
      .ok [Section.mk ['A'] "(a) The word means the dog.".toList []] ∧
    match_label "(a) The word means the dog.".toList = some ("(a)".toList, .paren_lower) := by
  constructor
  · rfl
  · rfl

/-- C1, amended.  For the single input line
`"A. 1. This statute is enforced for Bucks county"` the body structurer
produces a root `A` with empty text whose sole child `1` carries the text;
in general a physical line bearing several of the three dot-style labels
the structurer recognizes yields one node per label, each earlier label's
node getting the text (empty when the next label follows immediately) up
to where the next label begins — e.g. `"A. 1. a. Some text"` yields the
chain `A` → `1` → `a` with the two outer nodes empty.  Labels of the
parenthesized or ordinal styles are not recognized by this structurer. -/
theorem c1_multi_label_per_line :
    structure_result "A. 1. This statute is enforced for Bucks county".toList true =
      .ok [Section.mk ['A'] []
            [Section.mk ['1'] "This statute is enforced for Bucks county".toList []]] ∧
    structure_result "A. 1. a. Some text".toList true =
      .ok [Section.mk ['A'] []
            [Section.mk ['1'] [] [Section.mk ['a'] "Some text".toList []]]] ∧
    structure_result "A. first part a. second part".toList true =
      .ok [Section.mk ['A'] "first part".toList
            [Section.mk ['a'] "second part".toList []]] := by
  refine ⟨rfl, rfl, rfl⟩

/-- C2, counterexample.  On the document
`A. x. / 1. y. / B. z. / a. w. / b. v.` the level order becomes
[alpha_upper, numeric, alpha_lower], so `a.` has level 2 while the open
stack is `[B]` of length 1; the source pops while the stack's *length*
exceeds the new level, so pushing `b.` (level 2) onto the stack `[B, a]`
of length 2 pops nothing and `b` becomes a child of `a`.  Under the
claim's rule — pop while the top's recorded level is `≥` the new label's
level — `a` (level 2) would have been popped and `b` would be a sibling
of `a` under `B`. -/
theorem c2_pop_rule_counterexample :
    structure_result "A. x.\n1. y.\nB. z.\na. w.\nb. v.".toList false =
      .ok [Section.mk ['A'] "x.".toList [Section.mk ['1'] "y.".toList []],
           Section.mk ['B'] "z.".toList
             [Section.mk ['a'] "w.".toList [Section.mk ['b'] "v.".toList []]]] := by
  rfl

/-- C3, counterexample.  On the claim's four input lines the soft-wrap
pass merges `"a. Reckless driving"` (ends in an alphanumeric) with
`"b. Public endangerment"` and then with the trailing sentence, so the
structurer never creates a node `b`: with the consistency check off the
result is `B` → `a` with the `b.` marker and the trailing sentence
embedded in `a`'s text, and with the check on the whole call fails
(the root level starts at `B`, not `A`). -/
theorem c3_continuation_counterexample :
    structure_result ("B. The following are considered violations:\n" ++
        "a. Reckless driving\nb. Public endangerment\n" ++
        "These are all subsections of section B.").toList false =
      .ok [Section.mk ['B'] "The following are considered violations:".toList
            [Section.mk ['a']
              ("Reckless driving b. Public endangerment " ++
               "These are all subsections of section B.").toList []]] ∧
    structure_result ("B. The following are considered violations:\n" ++
        "a. Reckless driving\nb. Public endangerment\n" ++
        "These are all subsections of section B.").toList true =
      .error "Inconsistent alphabetic label sequence" := by
  exact ⟨rfl, rfl⟩

/-- C6, counterexample.  `structure` on the raw text
`"A. x\n1. y\n3. z"` does not raise: the soft-wrap pass first merges the
three lines into one (each line ends in an alphanumeric and none is
indented), the `3.` marker is absorbed into the text of node `1`, and the
resulting tree `A` → `1` passes the consistency check. -/
theorem c6_skipped_numeral_counterexample :
    structure_result "A. x\n1. y\n3. z".toList true =
      .ok [Section.mk ['A'] ['x'] [Section.mk ['1'] "y 3. z".toList []]] := by
  rfl

/-- C4: `match_label` of statutetree.py recognizes exactly the seven
anchored patterns, in the claimed order, and `clean_label` strips
parentheses and dots: the claim's examples `"(a)"` (parenthesized lower),
`"First."` (ordinal) and `"foo"` (no label), one witness per pattern, and
the two normalization examples. -/
theorem c4_label_classifier :
    match_label "A. text".toList = some ("A.".toList, .upper) ∧
    match_label "12. text".toList = some ("12.".toList, .number) ∧
    match_label "a. text".toList = some ("a.".toList, .lower) ∧
    match_label "(A) text".toList = some ("(A)".toList, .paren_upper) ∧
    match_label "(12) text".toList = some ("(12)".toList, .paren_number) ∧
    match_label "(a)".toList = some ("(a)".toList, .paren_lower) ∧
    match_label "First.".toList = some ("First.".toList, .ordinal) ∧
    match_label "foo".toList = none ∧
    match_label "Tenth. x".toList = some ("Tenth.".toList, .ordinal) ∧
    clean_label "(a)".toList = "a".toList ∧
    clean_label "12.".toList = "12".toList ∧
    clean_label "First.".toList = "First".toList := by
  refine ⟨rfl, rfl, rfl, rfl, rfl, rfl, rfl, rfl, rfl, rfl, rfl, rfl⟩

/-- C5, counterexample.  On the claim's own example strings the fuzzy
matcher returns `some 16`, not `some 18`: the character aligned with the
end of the prefix is the `n` of `brown` at byte offset 15 of the body
`"The\n quick\nbrown fox"`, so the offset just past it is 16.  (The
repository's unit test uses the body `"The\n   quick\nbrown fox"` — two
more spaces — for which the answer is 18.) -/
theorem c5_fuzzy_offset_counterexample :
    match_string_prefix_fuzzy "The\n quick\nbrown fox".toList "The quick brown".toList =
      some 16 ∧
    match_string_prefix_fuzzy "The\n quick\nbrown fox".toList "The quick brown".toList ≠
      some 18 := by
  exact ⟨rfl, by decide⟩

/-- C5, amended.  The fuzzy matcher returns the byte offset just past the
last body character aligned with the end of the prefix, skipping
whitespace and non-alphanumeric noise and comparing case-insensitively:
`some 16` on the claim's one-space body (`some 18` belongs to the
three-space body of the repository's test), `none` on
`("Hello world", "Hello Mars")`, and the values asserted by the
repository's own unit tests. -/
theorem c5_fuzzy_matcher :
    match_string_prefix_fuzzy "The\n quick\nbrown fox".toList "The quick brown".toList =
      some 16 ∧
    match_string_prefix_fuzzy "The\n   quick\nbrown fox".toList "The quick brown".toList =
      some 18 ∧
    match_string_prefix_fuzzy "Hello world".toList "Hello Mars".toList = none ∧
    match_string_prefix_fuzzy "The quick brown fox".toList "The quick".toList = some 9 ∧
    match_string_prefix_fuzzy "Thequickbrownfox".toList "The quick brown".toList = some 13 ∧
    match_string_prefix_fuzzy "  The \n quick\tbrown   fox".toList " The  quick brown".toList =
      some 19 ∧
    match_string_prefix_fuzzy "Short".toList "Short but longer".toList = none ∧
    match_string_prefix_fuzzy "Statute Title\nStatute Name\nRest of text".toList
      "Statute Title Statute Name".toList = some 26 := by
  refine ⟨rfl, rfl, rfl, rfl, rfl, rfl, rfl, rfl⟩

/-- C7: during whole-document segmentation the parse aborts with the
missing-content error exactly when some header token of the
table-of-contents region is absent from the body region's header tokens;
when every table-of-contents header appears among the body headers no such
error is raised. -/
theorem c7_toc_completeness_check (toc_references content_headers : List (List Char)) :
    (toc_consistency_check toc_references content_headers = .ok () ↔
      ∀ h ∈ toc_references, h ∈ content_headers) ∧
    (toc_consistency_check toc_references content_headers =
        .error "Statute had missing content" ↔
      ∃ h ∈ toc_references, h ∉ content_headers) := by
  have hfilter : (missing_toc_headers toc_references content_headers = []) ↔
      ∀ h ∈ toc_references, h ∈ content_headers := by
    simp [missing_toc_headers, List.filter_eq_nil_iff]
  constructor
  · rw [← hfilter]
    unfold toc_consistency_check
    split <;> rename_i hsplit
    · simp_all [List.isEmpty_iff]
    · simp_all [List.isEmpty_iff]
  · rw [show (∃ h ∈ toc_references, h ∉ content_headers) ↔
        ¬ ∀ h ∈ toc_references, h ∈ content_headers by push_neg; rfl]
    rw [← hfilter]
    unfold toc_consistency_check
    split <;> rename_i hsplit
    · simp_all [List.isEmpty_iff]
    · simp_all [List.isEmpty_iff]

/-- C7 witness: concrete instantiation of the completeness check. -/
theorem c7_toc_completeness_check_witness :
    toc_consistency_check ["§21-1.".toList] ["§21-1.".toList, "§21-2.".toList] = .ok () :=
  (c7_toc_completeness_check ["§21-1.".toList] ["§21-1.".toList, "§21-2.".toList]).1.mpr
    (by decide)

/-- C6, amended.  The per-level check of `_check_recursive` succeeds on a
list of non-empty sibling labels exactly when the labels are all numeric
and read 1..N, or are all single letters (compared case-insensitively)
and read a..(a+N-1), or fall under neither sequence check; applied to the
trees built from the claim's lines processed as separate lines, the
validator accepts `["A. x", "1. y", "2. z", "B. w"]` and rejects
`["A. x", "1. y", "3. z"]`.  The full `structure()` call on the raw
joined text accepts the first input but does *not* reject the second,
because the soft-wrap pass merges the lines and the `3.` marker is
absorbed into text (see the counterexample). -/
theorem c6_consistency_validator :
    (∀ labels : List (List Char),
      (level_label_check labels = .error "Inconsistent numeric label sequence" ↔
        labels.all (fun l => !l.isEmpty && l.all Char.isDigit) = true ∧
          labels.map digitsToNat ≠ List.range' 1 labels.length) ∧
      (level_label_check labels = .error "Inconsistent alphabetic label sequence" ↔
        labels.all (fun l => !l.isEmpty && l.all Char.isDigit) = false ∧
          labels.all (fun l => l.length == 1 && l.all Char.isAlpha) = true ∧
          labels.map (fun l => (Char.toLower (l.headD ' ')).toNat) ≠
            List.range' 97 labels.length)) ∧
    check_consistency
        ((["A. x", "1. y", "2. z", "B. w"].map String.toList).foldl process_line
          initState).sects = .ok () ∧
    check_consistency
        ((["A. x", "1. y", "3. z"].map String.toList).foldl process_line
          initState).sects = .error "Inconsistent numeric label sequence" ∧
    structure_result "A. x\n1. y\n2. z\nB. w".toList true =
      .ok [Section.mk ['A'] ['x'] [Section.mk ['1'] "y 2. z B. w".toList []]] := by
  refine ⟨?_, rfl, rfl, rfl⟩
  intro labels
  cases hd : labels.all (fun l => !l.isEmpty && l.all Char.isDigit) with
  | true =>
    by_cases hn : labels.map digitsToNat = List.range' 1 labels.length <;>
      simp only [level_label_check, hd, if_true, hn, if_pos, if_neg, not_false_eq_true] <;>
      constructor <;> constructor <;> simp_all
  | false =>
    cases ha : labels.all (fun l => l.length == 1 && l.all Char.isAlpha) with
    | true =>
      by_cases ho : labels.map (fun l => (Char.toLower (l.headD ' ')).toNat) =
          List.range' 97 labels.length <;>
        simp only [level_label_check, hd, ha, Bool.false_eq_true, if_false, if_true, ho,
          if_pos, if_neg, not_false_eq_true] <;>
        constructor <;> constructor <;> simp_all
    | false =>
      simp only [level_label_check, hd, ha, Bool.false_eq_true, if_false]
      constructor <;> constructor <;> simp_all

/-- Last element of a section forest (`self._structure[-1]`,
`stack[-1]`). -/
def lastSec : List Section → Option Section
  | [] => none
  | [s] => some s
  | _ :: s2 :: rest => lastSec (s2 :: rest)

/-- The node at depth `d` on the rightmost spine of a forest: depth 0 is
the last root, depth `d+1` the node at depth `d` of the last root's
subsections. -/
def node_at_rightmost : Nat → List Section → Option Section
  | 0, forest => lastSec forest
  | d + 1, forest =>
    match lastSec forest with
    | none => none
    | some s => node_at_rightmost d s.subsections

theorem lastSec_modifyLast (f : Section → Section) :
    ∀ L : List Section, lastSec (modifyLast f L) = (lastSec L).map f
  | [] => rfl
  | [_] => rfl
  | s :: s2 :: rest => by
    have ih := lastSec_modifyLast f (s2 :: rest)
    cases rest with
    | nil => simp [modifyLast, lastSec]
    | cons s3 rest2 =>
      simpa [modifyLast, lastSec] using ih

theorem lastSec_append_single (sec : Section) :
    ∀ L : List Section, lastSec (L ++ [sec]) = some sec
  | [] => rfl
  | [_] => rfl
  | s :: s2 :: rest => by
    simpa [lastSec] using lastSec_append_single sec (s2 :: rest)

theorem node_at_rightmost_modifyAtDepth (f : Section → Section) :
    ∀ (d : Nat) (L : List Section),
      node_at_rightmost d (modifyAtDepth f d L) = (node_at_rightmost d L).map f := by
  intro d
  induction d with
  | zero => intro L; exact lastSec_modifyLast f L
  | succ d ih =>
    intro L
    show node_at_rightmost (d + 1)
        (modifyLast (fun s => .mk s.label s.text (modifyAtDepth f d s.subsections)) L) = _
    unfold node_at_rightmost
    rw [lastSec_modifyLast]
    cases hL : lastSec L with
    | none => rfl
    | some s => simpa [Section.subsections] using ih s.subsections

theorem node_at_rightmost_succ_eq (d : Nat) (L : List Section) :
    node_at_rightmost (d + 1) L =
      (match lastSec L with
       | none => none
       | some s => node_at_rightmost d s.subsections) := rfl

theorem node_at_rightmost_succ :
    ∀ (d : Nat) (L : List Section),
      node_at_rightmost (d + 1) L =
        (node_at_rightmost d L).bind (fun s => lastSec s.subsections) := by
  intro d
  induction d with
  | zero =>
    intro L
    rw [node_at_rightmost_succ_eq]
    show _ = (lastSec L).bind fun s => lastSec s.subsections
    cases lastSec L <;> rfl
  | succ d ih =>
    intro L
    rw [node_at_rightmost_succ_eq]
    cases hL : lastSec L with
    | none =>
      rw [node_at_rightmost_succ_eq, hL]
      rfl
    | some s =>
      show node_at_rightmost (d + 1) s.subsections = _
      rw [ih s.subsections, node_at_rightmost_succ_eq, hL]

/-- `push_section` and `append_to_last` do not touch `level_order`. -/
theorem push_section_level_order (st : BState) (lab : List Char) (t : LabelType)
    (content : List Char) : (push_section st lab t content).level_order = st.level_order := by
  simp only [push_section]
  split_ifs <;> rfl

theorem append_to_last_level_order (st : BState) (line : List Char) :
    (append_to_last st line).level_order = st.level_order := by
  simp only [append_to_last]
  split_ifs <;> rfl

/-- `process_lineF` only ever appends to `level_order`. -/
theorem process_lineF_level_order_mono :
    ∀ (fuel : Nat) (st : BState) (line : List Char),
      ∃ ext, (process_lineF fuel st line).level_order = st.level_order ++ ext := by
  intro fuel
  induction fuel with
  | zero => intro st line; exact ⟨[], by simp [process_lineF]⟩
  | succ fuel ih =>
    intro st line
    unfold process_lineF
    cases hc : check_line_for_label line with
    | none => exact ⟨[], by simp [append_to_last_level_order]⟩
    | some lte =>
      obtain ⟨lab, t, e⟩ := lte
      cases hmem : st.level_order.contains t with
      | true =>
        simp only [hmem]
        split
        · obtain ⟨ext, hext⟩ := ih (push_section st lab t []) (stripWS (line.drop e))
          exact ⟨ext, by simpa [push_section_level_order] using hext⟩
        · split
          · rename_i idx _
            obtain ⟨ext, hext⟩ :=
              ih (push_section st lab t (stripWS ((stripWS (line.drop e)).take idx)))
                (stripWS ((stripWS (line.drop e)).drop idx))
            exact ⟨ext, by simpa [push_section_level_order] using hext⟩
          · exact ⟨[], by simp [push_section_level_order]⟩
      | false =>
        simp only [hmem]
        split
        · obtain ⟨ext, hext⟩ :=
            ih (push_section { st with level_order := st.level_order ++ [t] } lab t [])
              (stripWS (line.drop e))
          refine ⟨t :: ext, ?_⟩
          rw [hext, push_section_level_order]
          simp
        · split
          · rename_i idx _
            obtain ⟨ext, hext⟩ :=
              ih (push_section { st with level_order := st.level_order ++ [t] } lab t
                    (stripWS ((stripWS (line.drop e)).take idx)))
                (stripWS ((stripWS (line.drop e)).drop idx))
            refine ⟨t :: ext, ?_⟩
            rw [hext, push_section_level_order]
            simp
          · exact ⟨[t], by simp [push_section_level_order]⟩

/-- C2, amended.  The nesting level of a label type is its first-seen index
in the per-statute level order, a never-before-seen type being appended
(first conjunct).  `_push_section` pops the stack while its *length*
exceeds the new label's level — not while the top's recorded level is
`≥` the new level — leaving `min stackLen level` entries; the new node is
then appended as a child of the resulting stack top (the spine node just
above it), or as a new document root when the stack was emptied, and is
pushed.  When the stack is shorter than the new level (possible after a
pop to a shallow ancestor), a label can therefore nest under a
*same-level* node instead of becoming its sibling, as in the
counterexample. -/
theorem c2_stack_pop_rule :
    (∀ (fuel : Nat) (st : BState) (line lab : List Char) (t : LabelType) (e : Nat),
      check_line_for_label line = some (lab, t, e) →
      st.level_order.contains t = false →
      ∃ ext, (process_lineF (fuel + 1) st line).level_order = st.level_order ++ t :: ext) ∧
    (∀ (st : BState) (lab : List Char) (t : LabelType) (content : List Char),
      ((push_section st lab t content).stackLen =
        min st.stackLen (level_index st.level_order t) + 1) ∧
      (min st.stackLen (level_index st.level_order t) = 0 →
        (push_section st lab t content).sects = st.sects ++ [Section.mk lab content []] ∧
        (push_section st lab t content).stackDepth = 0) ∧
      (∀ p, min st.stackLen (level_index st.level_order t) ≠ 0 →
        node_at_rightmost (st.stackDepth + min st.stackLen (level_index st.level_order t) - 1)
          st.sects = some p →
        (push_section st lab t content).stackDepth = st.stackDepth ∧
        node_at_rightmost (st.stackDepth + min st.stackLen (level_index st.level_order t))
          (push_section st lab t content).sects = some (Section.mk lab content []))) := by
  constructor
  · intro fuel st line lab t e hline hmem
    unfold process_lineF
    rw [hline]
    simp only [hmem]
    split
    · obtain ⟨ext, hext⟩ :=
        process_lineF_level_order_mono fuel
          (push_section { st with level_order := st.level_order ++ [t] } lab t [])
          (stripWS (line.drop e))
      refine ⟨ext, ?_⟩
      rw [hext, push_section_level_order]
      simp
    · split
      · rename_i idx _
        obtain ⟨ext, hext⟩ :=
          process_lineF_level_order_mono fuel
            (push_section { st with level_order := st.level_order ++ [t] } lab t
              (stripWS ((stripWS (line.drop e)).take idx)))
            (stripWS ((stripWS (line.drop e)).drop idx))
        refine ⟨ext, ?_⟩
        rw [hext, push_section_level_order]
        simp
      · exact ⟨[], by simp [push_section_level_order]⟩
  · intro st lab t content
    refine ⟨?_, ?_, ?_⟩
    · simp only [push_section]
      split_ifs with h0 <;> simp_all
    · intro h0
      simp only [push_section]
      split_ifs
      simp_all
    · intro p hne hnode
      have hD : st.stackDepth + min st.stackLen (level_index st.level_order t) - 1 + 1 =
          st.stackDepth + min st.stackLen (level_index st.level_order t) := by
        omega
      constructor
      · simp only [push_section]
        split_ifs <;> simp_all
      · simp only [push_section]
        split_ifs with h0
        · exact absurd h0 hne
        · show node_at_rightmost _ (appendChildAt _ _ st.sects) = _
          rw [← hD, node_at_rightmost_succ]
          unfold appendChildAt
          simp only [Nat.add_sub_cancel]
          rw [node_at_rightmost_modifyAtDepth, hnode]
          simpa [Section.subsections] using lastSec_append_single _ p.subsections

/-- C2 witness: with level order `[alpha_upper, numeric]`, the open stack
`[A]` of length 1 and a new `numeric` label of level 1, nothing is popped
(`min 1 1 = 1`), the new node `1` lands below the stack top `A` at spine
depth 1, and the stack grows to length 2; and processing `"A. x"` from the
fresh state appends the never-seen `alpha_upper` to the level order. -/
theorem c2_stack_pop_rule_witness :
    ((push_section ⟨[Section.mk ['A'] ['x'] []], [.alpha_upper, .numeric], 0, 1⟩
        ['1'] .numeric ['y']).stackLen = min 1 1 + 1 ∧
      node_at_rightmost (0 + min 1 1)
        (push_section ⟨[Section.mk ['A'] ['x'] []], [.alpha_upper, .numeric], 0, 1⟩
          ['1'] .numeric ['y']).sects = some (Section.mk ['1'] ['y'] [])) ∧
    (∃ ext, (process_lineF 1 initState "A. x".toList).level_order =
      [] ++ LabelType.alpha_upper :: ext) := by
  constructor
  · constructor
    · exact (c2_stack_pop_rule.2 ⟨[Section.mk ['A'] ['x'] []], [.alpha_upper, .numeric], 0, 1⟩
        ['1'] .numeric ['y']).1
    · exact ((c2_stack_pop_rule.2 ⟨[Section.mk ['A'] ['x'] []], [.alpha_upper, .numeric], 0, 1⟩
        ['1'] .numeric ['y']).2.2 (Section.mk ['A'] ['x'] []) (by decide) rfl).2
  · exact c2_stack_pop_rule.1 0 initState "A. x".toList ['A'] .alpha_upper 3 rfl rfl

theorem dropWhile_head_false (p : Char → Bool) :
    ∀ (l : List Char) (c : Char) (rest : List Char),
      l.dropWhile p = c :: rest → p c = false := by
  intro l
  induction l with
  | nil => intro c rest h; cases h
  | cons a t ih =>
    intro c rest h
    by_cases hp : p a
    · rw [List.dropWhile_cons_of_pos hp] at h
      exact ih c rest h
    · rw [List.dropWhile_cons_of_neg hp] at h
      cases h
      exact Bool.eq_false_iff.mpr hp

theorem dropWhile_idem (p : Char → Bool) (l : List Char) :
    (l.dropWhile p).dropWhile p = l.dropWhile p := by
  cases h : l.dropWhile p with
  | nil => rfl
  | cons c rest =>
    rw [List.dropWhile_cons_of_neg]
    rw [dropWhile_head_false p l c rest h]
    exact Bool.false_ne_true

theorem rstripWS_idem (l : List Char) : rstripWS (rstripWS l) = rstripWS l := by
  unfold rstripWS
  rw [List.reverse_reverse, dropWhile_idem]

theorem rstripWS_eq_nil_iff (l : List Char) :
    rstripWS l = [] ↔ l.all pyIsSpace = true := by
  unfold rstripWS
  rw [List.reverse_eq_nil_iff, List.dropWhile_eq_nil_iff, List.all_eq_true]
  constructor
  · intro h x hx
    exact h x (List.mem_reverse.mpr hx)
  · intro h x hx
    exact h x (List.mem_reverse.mp hx)

/-- C3, amended.  The soft-wrap rule itself is as claimed: given two
physical lines, the first is merged into the next exactly when it ends (after
right-stripping) in an alphanumeric character or a comma and the next does
not begin with whitespace.  But applied to the claim's input that very
rule merges `"a. Reckless driving"` with `"b. Public endangerment"` and
with the trailing sentence, so the trailing unlabeled line does not become
continuation text of a node `b`: no node `b` exists, and the merged tail
is carried in the text of the single node `a` under `B` (see the
counterexample). -/
theorem c3_soft_wrap_rule :
    (∀ a b : List Char, rstripWS a ≠ [] → rstripWS b ≠ [] →
      soft_joinF 3 [a, b] =
        if (pyIsAlnum ((rstripWS a).getLastD ' ') || (rstripWS a).getLastD ' ' == ',')
            && !(pyIsSpace (b.headD 'x')) then
          [rstripWS (rstripWS a ++ ' ' :: stripWS b)]
        else [rstripWS a, rstripWS b]) ∧
    remove_soft_newlines ("B. The following are considered violations:\n" ++
        "a. Reckless driving\nb. Public endangerment\n" ++
        "These are all subsections of section B.").toList =
      ("B. The following are considered violations:\n" ++
       "a. Reckless driving b. Public endangerment " ++
       "These are all subsections of section B.").toList := by
  constructor
  · intro a b ha hb
    have hcE : (rstripWS a).isEmpty = false := by
      cases hl : rstripWS a with
      | nil => exact absurd hl ha
      | cons c t => rfl
    have hbE : (rstripWS b).isEmpty = false := by
      cases hl : rstripWS b with
      | nil => exact absurd hl hb
      | cons c t => rfl
    have hmne : rstripWS (rstripWS a ++ ' ' :: stripWS b) ≠ [] := by
      intro hnil
      have hall := (rstripWS_eq_nil_iff _).mp hnil
      rw [List.all_append] at hall
      have hall1 : (rstripWS a).all pyIsSpace = true := by
        cases hcase : (rstripWS a).all pyIsSpace
        · rw [hcase] at hall
          simp at hall
        · rfl
      have : rstripWS (rstripWS a) = [] := (rstripWS_eq_nil_iff _).mpr hall1
      rw [rstripWS_idem] at this
      exact ha this
    have hmE : (rstripWS (rstripWS a ++ ' ' :: stripWS b)).isEmpty = false := by
      cases hl : rstripWS (rstripWS a ++ ' ' :: stripWS b) with
      | nil => exact absurd hl hmne
      | cons c t => rfl
    simp only [soft_joinF, hcE, hbE, hmE, Bool.false_eq_true, if_false]
  · rfl

/-- C3 witness: the rule applied to the claim's second and third lines —
`"a. Reckless driving"` ends in an alphanumeric and
`"b. Public endangerment"` is not indented, so they merge. -/
theorem c3_soft_wrap_rule_witness :
    soft_joinF 3 ["a. Reckless driving".toList, "b. Public endangerment".toList] =
      if (pyIsAlnum ((rstripWS "a. Reckless driving".toList).getLastD ' ') ||
            (rstripWS "a. Reckless driving".toList).getLastD ' ' == ',')
          && !(pyIsSpace ("b. Public endangerment".toList.headD 'x')) then
        [rstripWS (rstripWS "a. Reckless driving".toList ++ ' ' ::
          stripWS "b. Public endangerment".toList)]
      else [rstripWS "a. Reckless driving".toList,
            rstripWS "b. Public endangerment".toList] :=
  c3_soft_wrap_rule.1 "a. Reckless driving".toList "b. Public endangerment".toList
    (by decide) (by decide)

theorem drop_length_takeWhile (p : Char → Bool) :
    ∀ l : List Char, l.drop (l.takeWhile p).length = l.dropWhile p := by
  intro l
  induction l with
  | nil => rfl
  | cons a t ih =>
    by_cases hp : p a
    · rw [List.takeWhile_cons_of_pos hp, List.dropWhile_cons_of_pos hp]
      simpa using ih
    · rw [List.takeWhile_cons_of_neg hp, List.dropWhile_cons_of_neg hp]
      rfl

theorem take_length_takeWhile (p : Char → Bool) (l : List Char) :
    l.take (l.takeWhile p).length = l.takeWhile p :=
  ((List.prefix_iff_eq_take).mp ( List.takeWhile_prefix p)).symm

theorem takeWhile_all (p : Char → Bool) (l : List Char) :
    (l.takeWhile p).all p = true := by
  rw [List.all_eq_true]
  intro x hx
  exact List.mem_takeWhile_imp hx

theorem takeWhile_append_stop (p : Char → Bool) :
    ∀ (l1 : List Char) (c : Char) (l2 : List Char),
      l1.all p = true → p c = false → (l1 ++ c :: l2).takeWhile p = l1 := by
  intro l1
  induction l1 with
  | nil =>
    intro c l2 _ hc
    rw [List.nil_append]
    exact List.takeWhile_cons_of_neg (by simp [hc])
  | cons a t ih =>
    intro c l2 h1 hc
    rw [List.all_cons, Bool.and_eq_true] at h1
    rw [List.cons_append, List.takeWhile_cons_of_pos h1.1, ih c l2 h1.2 hc]

/-- The render of the optional `v<version>` suffix. -/
def version_render : Option (List Char) → List Char
  | none => []
  | some ds => 'v' :: ds

theorem drop_dollar_newline_cases (l : List Char) :
    l = drop_dollar_newline l ∨ l = drop_dollar_newline l ++ ['\n'] := by
  unfold drop_dollar_newline
  split_ifs with h
  · right
    have hne : l ≠ [] := by
      intro hl
      rw [hl] at h
      cases h
    have hlast : l.getLast hne = '\n' := by
      rw [List.getLast?_eq_getLast l hne] at h
      exact Option.some_injective _ h
    conv_lhs => rw [← List.dropLast_append_getLast hne]
    rw [hlast]
  · left
    rfl

theorem ref_tail_version_digits (suffix : List Char) (h : ref_tail_ok suffix = true) :
    ∀ ds, ref_tail_version suffix = some ds → ds ≠ [] ∧ ds.all Char.isDigit = true := by
  intro ds hver
  unfold ref_tail_ok at h
  unfold ref_tail_version at hver
  rw [Bool.or_eq_true] at h
  cases hcore : drop_dollar_newline suffix with
  | nil =>
    rw [hcore] at hver
    cases hver
  | cons c tl =>
    rw [hcore] at h hver
    rcases h with h1 | h2
    · simp [List.isEmpty_iff] at h1
    · split at h2
      · rename_i heq
        cases heq
        cases hver
        rw [Bool.and_eq_true] at h2
        refine ⟨?_, h2.2⟩
        intro hnil
        rw [hnil] at h2
        simp at h2
      · cases h2

theorem version_render_tail (suffix : List Char) (h : ref_tail_ok suffix = true) :
    version_render (ref_tail_version suffix) = drop_dollar_newline suffix := by
  unfold ref_tail_ok at h
  unfold ref_tail_version
  rw [Bool.or_eq_true] at h
  cases hcore : drop_dollar_newline suffix with
  | nil => rfl
  | cons c tl =>
    rw [hcore] at h
    rcases h with h1 | h2
    · simp [List.isEmpty_iff] at h1
    · split at h2
      · rename_i heq
        cases heq
        rfl
      · cases h2

theorem ref_regex_match_sound (text : List Char) (r : Reference)
    (h : ref_regex_match text = some r) :
    r.title ≠ [] ∧ r.title.all Char.isDigit = true ∧ r.section_ ≠ [] ∧
    r.section_.all ref_section_char = true ∧
    (∀ ds, r.version = some ds → ds ≠ [] ∧ ds.all Char.isDigit = true) ∧
    (text = r.title ++ '-' :: (r.section_ ++ version_render r.version) ∨
     text = r.title ++ '-' :: (r.section_ ++ version_render r.version ++ ['\n'])) := by
  simp only [ref_regex_match] at h
  by_cases hds : text.takeWhile Char.isDigit = []
  · rw [if_pos hds] at h
    cases h
  · rw [if_neg hds] at h
    split at h
    case _ rest hdrop =>
      split at h
      case _ k hfind =>
        cases h
        have hk := List.find?_some hfind
        rw [Bool.and_eq_true] at hk
        have hkmem : k < rest.length := List.mem_range.mp (List.mem_of_find?_eq_some hfind)
        have htext : text = text.takeWhile Char.isDigit ++ '-' :: rest := by
          conv_lhs => rw [← List.take_append_drop (text.takeWhile Char.isDigit).length text]
          rw [take_length_takeWhile, hdrop]
        have hrest : rest = rest.take (k + 1) ++ rest.drop (k + 1) :=
          (List.take_append_drop (k + 1) rest).symm
        refine ⟨hds, takeWhile_all Char.isDigit text, ?_, hk.1, ?_, ?_⟩
        · show ¬(rest.take (k + 1) = [])
          have hlen : (rest.take (k + 1)).length = k + 1 := by
            rw [List.length_take]
            omega
          intro hnil
          rw [hnil] at hlen
          cases hlen
        · show ∀ ds, ref_tail_version (rest.drop (k + 1)) = some ds →
            ds ≠ [] ∧ ds.all Char.isDigit = true
          exact ref_tail_version_digits (rest.drop (k + 1)) hk.2
        · show text = text.takeWhile Char.isDigit ++ '-' ::
              (rest.take (k + 1) ++ version_render (ref_tail_version (rest.drop (k + 1)))) ∨
            text = text.takeWhile Char.isDigit ++ '-' ::
              (rest.take (k + 1) ++ version_render (ref_tail_version (rest.drop (k + 1))) ++ ['\n'])
          rw [version_render_tail (rest.drop (k + 1)) hk.2]
          rcases drop_dollar_newline_cases (rest.drop (k + 1)) with hs | hs
          · left
            conv_lhs => rw [htext]
            rw [← hs, ← hrest]
          · right
            conv_lhs => rw [htext]
            rw [List.append_assoc, ← hs, ← hrest]
      case _ => cases h
    case _ => cases h

theorem ref_regex_match_eq_of (text rest : List Char)
    (hds : text.takeWhile Char.isDigit ≠ [])
    (hdrop : text.drop (text.takeWhile Char.isDigit).length = '-' :: rest) :
    ref_regex_match text =
      match (List.range rest.length).find?
          (fun k => (rest.take (k + 1)).all ref_section_char &&
            ref_tail_ok (rest.drop (k + 1))) with
      | some k =>
        some ⟨text.takeWhile Char.isDigit, rest.take (k + 1),
          ref_tail_version (rest.drop (k + 1))⟩
      | none => none := by
  unfold ref_regex_match
  rw [if_neg hds, hdrop]
  rfl

theorem ref_regex_match_complete (text t s : List Char) (v : Option (List Char))
    (htext : text = t ++ '-' :: (s ++ version_render v))
    (ht : t ≠ []) (htd : t.all Char.isDigit = true)
    (hs : s ≠ []) (hsc : s.all ref_section_char = true)
    (hv : ∀ ds, v = some ds → ds ≠ [] ∧ ds.all Char.isDigit = true) :
    ∃ r, ref_regex_match text = some r := by
  subst htext
  have hds : ((t ++ '-' :: (s ++ version_render v)).takeWhile Char.isDigit) = t :=
    takeWhile_append_stop Char.isDigit t '-' (s ++ version_render v) htd (by decide)
  have hdrop : (t ++ '-' :: (s ++ version_render v)).drop
      ((t ++ '-' :: (s ++ version_render v)).takeWhile Char.isDigit).length =
      '-' :: (s ++ version_render v) := by
    rw [hds, List.drop_left]
  have hvr_ok : ref_tail_ok (version_render v) = true := by
    cases v with
    | none => rfl
    | some ds =>
      obtain ⟨hne, hdig⟩ := hv ds rfl
      have hcore : drop_dollar_newline ('v' :: ds) = 'v' :: ds := by
        unfold drop_dollar_newline
        rw [if_neg]
        intro hlast
        have hmem : '\n' ∈ 'v' :: ds := List.mem_of_getLast?_eq_some hlast
        rcases List.mem_cons.mp hmem with hh | hh
        · cases hh
        · rw [List.all_eq_true] at hdig
          have := hdig '\n' hh
          cases this
      unfold ref_tail_ok version_render
      rw [hcore]
      simp only [Bool.or_eq_true]
      right
      rw [Bool.and_eq_true]
      constructor
      · cases ds with
        | nil => exact absurd rfl hne
        | cons d tl => rfl
      · exact hdig
  have hpred : (((s ++ version_render v).take (s.length - 1 + 1)).all ref_section_char &&
      ref_tail_ok ((s ++ version_render v).drop (s.length - 1 + 1))) = true := by
    have hlen : s.length - 1 + 1 = s.length := by
      cases s with
      | nil => exact absurd rfl hs
      | cons a tl => simp
    rw [hlen, List.take_left, List.drop_left, Bool.and_eq_true]
    exact ⟨hsc, hvr_ok⟩
  have hmem : s.length - 1 ∈ List.range (s ++ version_render v).length := by
    rw [List.mem_range, List.length_append]
    have : 1 ≤ s.length := by
      cases s with
      | nil => exact absurd rfl hs
      | cons a tl => simp
    omega
  obtain ⟨k, hk⟩ : ∃ k, (List.range (s ++ version_render v).length).find?
      (fun k => ((s ++ version_render v).take (k + 1)).all ref_section_char &&
        ref_tail_ok ((s ++ version_render v).drop (k + 1))) = some k := by
    cases hfind : (List.range (s ++ version_render v).length).find?
        (fun k => ((s ++ version_render v).take (k + 1)).all ref_section_char &&
          ref_tail_ok ((s ++ version_render v).drop (k + 1))) with
    | some k => exact ⟨k, rfl⟩
    | none =>
      exact absurd hpred (by simpa using List.find?_eq_none.mp hfind (s.length - 1) hmem)
  rw [ref_regex_match_eq_of _ _ (by rw [hds]; exact ht) hdrop, hk]
  exact ⟨_, rfl⟩

/-- C8, counterexample.  A single trailing newline survives punctuation
normalization (Python's `strip`/`rstrip(".: ")` leave it when a stripped
dot followed it), and the regex's `$` anchor matches just before a final
newline: on the token `"§21-54\n."` the normalized text is `"21-54\n"`,
which is not of the form `§?<title>-<section>(v<version>)?`, yet the
reference structurer returns `{title: "21", section: "54", version: None}`
instead of raising a parse error. -/
theorem c8_reference_newline_counterexample :
    reference_structure "§21-54\n.".toList =
      .ok ⟨"21".toList, "54".toList, none⟩ ∧
    ref_normalize "§21-54\n.".toList = "21-54\n".toList := by
  exact ⟨rfl, rfl⟩

/-- C8, amended.  After stripping the leading `§` signs and the trailing
`.`, `:`, ` ` characters, the reference structurer parses exactly the
tokens decomposing as `<digits>-<section chars>[v<digits>]`, optionally
followed by one final newline, which the regex's `$` anchor tolerates:
`"§21-54.1v2"` yields title `21`, section `54.1`, version `2`; the version
is `None` when the `v` suffix is absent; every other token raises the
parse error.  Soundness: every successful parse decomposes the normalized
token in this form, with a non-empty all-digit title, a non-empty section
over `[A-Za-z0-9.-]` and an all-digit version.  Completeness: every token
whose normalization decomposes in this form parses successfully. -/
theorem c8_reference_structurer :
    reference_structure "§21-54.1v2".toList =
      .ok ⟨"21".toList, "54.1".toList, some "2".toList⟩ ∧
    reference_structure "§21-123a.".toList =
      .ok ⟨"21".toList, "123a".toList, none⟩ ∧
    reference_structure "§63-312.5:".toList =
      .ok ⟨"63".toList, "312.5".toList, none⟩ ∧
    reference_structure "foo".toList = .error "Unrecognized title format" ∧
    reference_structure "§21-".toList = .error "Unrecognized title format" ∧
    (∀ raw r, reference_structure raw = .ok r →
      r.title ≠ [] ∧ r.title.all Char.isDigit = true ∧ r.section_ ≠ [] ∧
      r.section_.all ref_section_char = true ∧
      (∀ ds, r.version = some ds → ds ≠ [] ∧ ds.all Char.isDigit = true) ∧
      (ref_normalize raw = r.title ++ '-' :: (r.section_ ++ version_render r.version) ∨
       ref_normalize raw =
         r.title ++ '-' :: (r.section_ ++ version_render r.version ++ ['\n']))) ∧
    (∀ raw t s v, ref_normalize raw = t ++ '-' :: (s ++ version_render v) →
      t ≠ [] → t.all Char.isDigit = true → s ≠ [] → s.all ref_section_char = true →
      (∀ ds, v = some ds → ds ≠ [] ∧ ds.all Char.isDigit = true) →
      ∃ r, reference_structure raw = .ok r) := by
  refine ⟨rfl, rfl, rfl, rfl, rfl, ?_, ?_⟩
  · intro raw r h
    unfold reference_structure at h
    cases hmatch : ref_regex_match (ref_normalize raw) with
    | none => rw [hmatch] at h; cases h
    | some r0 =>
      rw [hmatch] at h
      cases h
      exact ref_regex_match_sound (ref_normalize raw) _ hmatch
  · intro raw t s v htext ht htd hs hsc hv
    obtain ⟨r, hr⟩ :=
      ref_regex_match_complete (ref_normalize raw) t s v htext ht htd hs hsc hv
    refine ⟨r, ?_⟩
    unfold reference_structure
    rw [hr]

/-- C8 witness: the soundness conjunct applied to the parse of
`"§21-54.1v2"` and the completeness conjunct applied to the normalized
token `"21-54.1v2"` itself. -/
theorem c8_reference_structurer_witness :
    ("21".toList ≠ [] ∧ "21".toList.all Char.isDigit = true ∧ "54.1".toList ≠ [] ∧
      "54.1".toList.all ref_section_char = true ∧
      (∀ ds, some "2".toList = some ds → ds ≠ [] ∧ ds.all Char.isDigit = true) ∧
      (ref_normalize "§21-54.1v2".toList =
          "21".toList ++ '-' :: ("54.1".toList ++ version_render (some "2".toList)) ∨
       ref_normalize "§21-54.1v2".toList =
          "21".toList ++ '-' :: ("54.1".toList ++ version_render (some "2".toList) ++ ['\n']))) ∧
    (∃ r, reference_structure "§21-54.1v2".toList = .ok r) := by
  constructor
  · exact c8_reference_structurer.2.2.2.2.2.1 "§21-54.1v2".toList
      ⟨"21".toList, "54.1".toList, some "2".toList⟩ rfl
  · exact c8_reference_structurer.2.2.2.2.2.2 "§21-54.1v2".toList
      "21".toList "54.1".toList (some "2".toList) rfl (by decide) (by decide) (by decide)
      (by decide) (by intro ds hds; cases hds; exact ⟨by decide, by decide⟩)

theorem reference_json_round (r : Reference) :
    json_to_reference (reference_to_json r) = some r := by
  obtain ⟨t, s, v⟩ := r
  cases v <;> rfl

mutual

def section_json_round : (s : Section) → json_to_section (section_to_json s) = some s
  | .mk l t subs => by
    show (match jsons_to_sections (sections_to_json subs) with
          | some ss => some (Section.mk l t ss)
          | none => none) = some (Section.mk l t subs)
    rw [sections_json_round subs]

def sections_json_round : (L : List Section) → jsons_to_sections (sections_to_json L) = some L
  | [] => rfl
  | s :: rest => by
    show (match json_to_section (section_to_json s) with
          | some s0 =>
            match jsons_to_sections (sections_to_json rest) with
            | some ss => some (s0 :: ss)
            | none => none
          | none => none) = some (s :: rest)
    rw [section_json_round s, sections_json_round rest]

end

/-- C9: serializing a statute record — reference, name, nested body tree,
history — with `Statute.to_json` and deserializing with `Statute.from_json`
yields the record back field for field, including structural equality of
the nested label/text/subsections body tree.  (The string codec
`json.dumps`/`json.loads` of the standard library is modelled at the JSON
value level.) -/
theorem c9_statute_json_round_trip (st : StatuteRec) :
    statute_from_json (statute_to_json st) = .ok st := by
  obtain ⟨r, n, b, h⟩ := st
  show (match json_to_reference (reference_to_json r), json_to_section (section_to_json b) with
        | some r0, some b0 => Except.ok (⟨r0, n, b0, h⟩ : StatuteRec)
        | _, _ => Except.error "malformed statute record") = .ok ⟨r, n, b, h⟩
  rw [reference_json_round r, section_json_round b]

mutual

/-- `SecExtends a b`: node `b` is node `a` as later mutation by the same
structurer object may have left it — same label, text only appended to,
subsections only appended to or themselves extended. -/
def SecExtends : Section → Section → Prop
  | .mk l1 t1 s1, .mk l2 t2 s2 => l1 = l2 ∧ t1 <+: t2 ∧ SubsExtends s1 s2

/-- Pointwise extension of a prefix of the node list. -/
def SubsExtends : List Section → List Section → Prop
  | [], _ => True
  | _ :: _, [] => False
  | a :: as, b :: bs => SecExtends a b ∧ SubsExtends as bs

end

/-- The first root of the first list survives (possibly extended) as the
first root of the second. -/
def headExtends : List Section → List Section → Prop
  | [], _ => True
  | _ :: _, [] => False
  | a :: _, b :: _ => SecExtends a b

mutual

def secExtends_refl : (s : Section) → SecExtends s s
  | .mk _ t subs => ⟨rfl, List.prefix_refl t, subsExtends_refl subs⟩

def subsExtends_refl : (L : List Section) → SubsExtends L L
  | [] => trivial
  | s :: rest => ⟨secExtends_refl s, subsExtends_refl rest⟩

end

mutual

def secExtends_trans : (a b c : Section) → SecExtends a b → SecExtends b c → SecExtends a c
  | .mk _ _ s1, .mk _ _ s2, .mk _ _ s3, ⟨he1, hp1, hs1⟩, ⟨he2, hp2, hs2⟩ =>
    ⟨he1.trans he2, hp1.trans hp2, subsExtends_trans s1 s2 s3 hs1 hs2⟩

def subsExtends_trans :
    (x y z : List Section) → SubsExtends x y → SubsExtends y z → SubsExtends x z
  | [], _, _, _, _ => trivial
  | _ :: _, [], _, h1, _ => h1.elim
  | _ :: _, _ :: _, [], _, h2 => h2.elim
  | a :: as, b :: bs, c :: cs, ⟨hab, habs⟩, ⟨hbc, hbcs⟩ =>
    ⟨secExtends_trans a b c hab hbc, subsExtends_trans as bs cs habs hbcs⟩

end

theorem headExtends_refl : ∀ L : List Section, headExtends L L
  | [] => trivial
  | s :: _ => secExtends_refl s

theorem headExtends_trans :
    ∀ {L1 L2 L3 : List Section}, headExtends L1 L2 → headExtends L2 L3 → headExtends L1 L3 := by
  intro L1 L2 L3 h1 h2
  cases L1 with
  | nil => trivial
  | cons a as =>
    cases L2 with
    | nil => exact h1.elim
    | cons b bs =>
      cases L3 with
      | nil => exact h2.elim
      | cons c cs => exact secExtends_trans a b c h1 h2

theorem subsExtends_append : ∀ L M : List Section, SubsExtends L (L ++ M)
  | [], _ => trivial
  | s :: rest, M => ⟨secExtends_refl s, subsExtends_append rest M⟩

theorem subsExtends_headExtends :
    ∀ {L L' : List Section}, SubsExtends L L' → headExtends L L' := by
  intro L L' h
  cases L with
  | nil => trivial
  | cons a as =>
    cases L' with
    | nil => exact h.elim
    | cons b bs => exact h.1

theorem headExtends_append : ∀ L M : List Section, headExtends L (L ++ M)
  | [], _ => trivial
  | s :: _, _ => secExtends_refl s

theorem subsExtends_modifyLast (f : Section → Section) (hf : ∀ s, SecExtends s (f s)) :
    ∀ L : List Section, SubsExtends L (modifyLast f L)
  | [] => trivial
  | [s] => ⟨hf s, trivial⟩
  | s :: s2 :: rest => ⟨secExtends_refl s, subsExtends_modifyLast f hf (s2 :: rest)⟩

theorem subsExtends_modifyAtDepth (f : Section → Section) (hf : ∀ s, SecExtends s (f s)) :
    ∀ (d : Nat) (L : List Section), SubsExtends L (modifyAtDepth f d L) := by
  intro d
  induction d with
  | zero => intro L; exact subsExtends_modifyLast f hf L
  | succ d ih =>
    intro L
    show SubsExtends L (modifyLast _ L)
    refine subsExtends_modifyLast _ ?_ L
    intro s
    obtain ⟨l, t, subs⟩ := s
    exact ⟨rfl, List.prefix_refl t, ih subs⟩

theorem headExtends_appendChildAt (d : Nat) (sec : Section) (L : List Section) :
    headExtends L (appendChildAt d sec L) := by
  refine subsExtends_headExtends (subsExtends_modifyAtDepth _ ?_ d L)
  intro s
  obtain ⟨l, t, subs⟩ := s
  exact ⟨rfl, List.prefix_refl t, subsExtends_append subs [sec]⟩

theorem headExtends_appendTextAt (d : Nat) (txt : List Char) (L : List Section) :
    headExtends L (appendTextAt d txt L) := by
  refine subsExtends_headExtends (subsExtends_modifyAtDepth _ ?_ d L)
  intro s
  obtain ⟨l, t, subs⟩ := s
  exact ⟨rfl, ⟨' ' :: txt, rfl⟩, subsExtends_refl subs⟩

theorem headExtends_push_section (st : BState) (lab : List Char) (t : LabelType)
    (content : List Char) : headExtends st.sects (push_section st lab t content).sects := by
  simp only [push_section]
  split_ifs
  · exact headExtends_append st.sects _
  · exact headExtends_appendChildAt _ _ st.sects

theorem headExtends_append_to_last (st : BState) (line : List Char) :
    headExtends st.sects (append_to_last st line).sects := by
  simp only [append_to_last]
  split_ifs with h1 h2
  · exact headExtends_appendTextAt _ _ st.sects
  · rw [List.isEmpty_iff] at h2
    rw [h2]
    trivial
  · exact headExtends_appendTextAt _ _ st.sects

theorem headExtends_process_lineF :
    ∀ (fuel : Nat) (st : BState) (line : List Char),
      headExtends st.sects (process_lineF fuel st line).sects := by
  intro fuel
  induction fuel with
  | zero => intro st line; exact headExtends_refl st.sects
  | succ fuel ih =>
    intro st line
    unfold process_lineF
    cases hc : check_line_for_label line with
    | none => exact headExtends_append_to_last st line
    | some lte =>
      obtain ⟨lab, t, e⟩ := lte
      cases hmem : st.level_order.contains t with
      | true =>
        simp only [hmem]
        split
        · exact headExtends_trans (headExtends_push_section st lab t []) (ih _ _)
        · split
          · exact headExtends_trans (headExtends_push_section st lab t _) (ih _ _)
          · exact headExtends_push_section st lab t _
      | false =>
        simp only [hmem]
        split
        · exact headExtends_trans
            (headExtends_push_section { st with level_order := st.level_order ++ [t] } lab t [])
            (ih _ _)
        · split
          · exact headExtends_trans
              (headExtends_push_section { st with level_order := st.level_order ++ [t] } lab t _)
              (ih _ _)
          · exact headExtends_push_section { st with level_order := st.level_order ++ [t] } lab t _

theorem headExtends_foldl :
    ∀ (lines : List (List Char)) (st : BState),
      headExtends st.sects (lines.foldl process_line st).sects := by
  intro lines
  induction lines with
  | nil => intro st; exact headExtends_refl st.sects
  | cons l rest ih =>
    intro st
    exact headExtends_trans (headExtends_process_lineF _ st l) (ih (process_line st l))

theorem headExtends_intro_nesting (st : BState) :
    headExtends st.sects (intro_nesting st).sects := by
  unfold intro_nesting
  cases hsects : st.sects with
  | nil => trivial
  | cons intro rest =>
    show headExtends (intro :: rest)
      (if rest.length ≠ 0 ∧ intro.label = [] ∧ rest.all (fun s => !s.label.isEmpty) then
        ({ st with
           sects := [Section.mk intro.label intro.text (intro.subsections ++ rest)],
           stackDepth := if st.stackLen = 0 then st.stackDepth else st.stackDepth + 1 } : BState)
       else st).sects
    rw [apply_ite BState.sects]
    dsimp only
    split_ifs with hcond
    · show headExtends (intro :: rest) [Section.mk intro.label intro.text (intro.subsections ++ rest)]
      obtain ⟨l, t, subs⟩ := intro
      exact ⟨rfl, List.prefix_refl t, subsExtends_append subs rest⟩
    · show headExtends (intro :: rest) st.sects
      rw [hsects]
      exact headExtends_refl _

theorem structure_fn_head_mono (st : BState) (raw : List Char) (check : Bool)
    (R : List Section) (s' : BState) (h : structure_fn st raw check = .ok (R, s')) :
    R = s'.sects ∧ headExtends st.sects s'.sects := by
  have hmono : headExtends st.sects
      (intro_nesting ((pySplitlines (stripWS (remove_soft_newlines raw))).foldl
        process_line st)).sects :=
    headExtends_trans (headExtends_foldl _ st) (headExtends_intro_nesting _)
  simp only [structure_fn] at h
  split_ifs at h with hcheck
  · split at h
    · cases h
    · cases h
      exact ⟨rfl, hmono⟩
  · cases h
    exact ⟨rfl, hmono⟩

/-- C10: the structurer object's state (`self._structure`, `self.stack`,
`self.level_order`) is never reset by a call to `structure`: the second
call continues from the state the first call left, and if the first call
returned a non-empty root list then the first root of that list survives —
with possibly more text or subsections attached to it or to its
descendants — as the first root of the list returned by the second call,
so results of successive calls on one instance are not independent. -/
theorem c10_structurer_state_persists (st : BState) (raw1 raw2 : List Char)
    (c1 c2 : Bool) (R1 R2 : List Section) (s1 s2 : BState)
    (r1 : Section) (rest1 : List Section)
    (h1 : structure_fn st raw1 c1 = .ok (R1, s1))
    (h2 : structure_fn s1 raw2 c2 = .ok (R2, s2))
    (hR1 : R1 = r1 :: rest1) :
    ∃ r2 rest2, R2 = r2 :: rest2 ∧ SecExtends r1 r2 := by
  obtain ⟨hR1eq, _⟩ := structure_fn_head_mono st raw1 c1 R1 s1 h1
  obtain ⟨hR2eq, hmono⟩ := structure_fn_head_mono s1 raw2 c2 R2 s2 h2
  rw [hR1eq] at hR1
  rw [hR1] at hmono
  rw [hR2eq]
  cases hs2 : s2.sects with
  | nil => rw [hs2] at hmono; exact hmono.elim
  | cons r2 rest2 =>
    rw [hs2] at hmono
    exact ⟨r2, rest2, rfl, hmono⟩

/-- C10 witness: structuring `"A. Foo"` and then `"B. Bar"` with the same
object: the second call returns `[A, B]`, whose first root is the `A` node
of the first call's result. -/
theorem c10_structurer_state_persists_witness :
    ∃ r2 rest2,
      [Section.mk ['A'] "Foo".toList [], Section.mk ['B'] "Bar".toList []] = r2 :: rest2 ∧
      SecExtends (Section.mk ['A'] "Foo".toList []) r2 :=
  c10_structurer_state_persists initState "A. Foo".toList "B. Bar".toList true true
    [Section.mk ['A'] "Foo".toList []]
    [Section.mk ['A'] "Foo".toList [], Section.mk ['B'] "Bar".toList []]
    ⟨[Section.mk ['A'] "Foo".toList []], [.alpha_upper], 0, 1⟩
    ⟨[Section.mk ['A'] "Foo".toList [], Section.mk ['B'] "Bar".toList []], [.alpha_upper], 0, 1⟩
    (Section.mk ['A'] "Foo".toList []) [] rfl rfl rfl
